import Mathlib

/-!
Verification of the sensor-fusion / NMEA ingestion core of sdlSpeedometer.

Shallow embedding of the relevant C functions from `src/sdlSpeedometer.c`
and `src/i2cSpeedometer.c`.  C `float`/`double` arithmetic is idealised as
exact rational arithmetic (`ℚ`); `time_t` and C `int` become `ℤ`;
transcendental sub-expressions (the `atan2` results) become explicit
parameters of the embedded functions, constrained to their mathematical
range where a claim needs it.  Fixed-size C buffers are idealised as
unbounded strings/lists.
-/

namespace Speedometer

/-! ## NMEA codec: `nmeaChecksum` (sdlSpeedometer.c:359-394) -/

/-- Byte value of a character, as the C cast `(uint8_t)str[i]` produces it
for the ASCII text this program handles. -/
def byteOf (c : Char) : Nat := c.toNat % 256

/-- The checksum accumulation loop of `nmeaChecksum` (lines 380-383):
XOR of the byte values of a character list, skipping every
`'$'` and `'!'` character (`if (str_p1[i] == '$' || str_p1[i] == '!') continue;`). -/
def xorSkip (l : List Char) : Nat :=
  l.foldl (fun a c => if c = '$' ∨ c = '!' then a else a ^^^ byteOf c) 0

/-- The scan loop of `nmeaChecksum` (lines 367-377) as far as it computes
`cs`: walking the buffer, `cs` becomes `i+1` for every `'*'` found, so the
result is one past the position of the last `'*'` (0 when there is none).
The `\r`/`\n` truncation of that loop is applied before calling this. -/
def starScan : List Char → Nat → Nat → Nat
  | [], _, cs => cs
  | c :: rest, i, cs => starScan rest (i + 1) (if c = '*' then i + 1 else cs)

/-- C `isspace` on the default locale, used by `strtol` to skip leading
whitespace: space (32) and the control characters 9-13. -/
def isSpaceChar (c : Char) : Bool := c.toNat = 32 ∨ (9 ≤ c.toNat ∧ c.toNat ≤ 13)

/-- Hexadecimal digit recognition (`0-9`, `a-f`, `A-F`), by byte value. -/
def isHexDigitChar (c : Char) : Bool :=
  (48 ≤ c.toNat ∧ c.toNat ≤ 57) ∨ (97 ≤ c.toNat ∧ c.toNat ≤ 102) ∨
    (65 ≤ c.toNat ∧ c.toNat ≤ 70)

/-- Value of a hexadecimal digit; upper and lower case give the same value
(`strtol` is case-insensitive on hex digits).  0 on a non-digit. -/
def hexDigitVal (c : Char) : Nat :=
  if 48 ≤ c.toNat ∧ c.toNat ≤ 57 then c.toNat - 48
  else if 97 ≤ c.toNat ∧ c.toNat ≤ 102 then c.toNat - 87
  else if 65 ≤ c.toNat ∧ c.toNat ≤ 70 then c.toNat - 55
  else 0

/-- Fold over the maximal leading run of hex digits, `strtol`-style. -/
def hexDigits : List Char → Nat → Nat
  | [], acc => acc
  | c :: rest, acc =>
      if isHexDigitChar c then hexDigits rest (acc * 16 + hexDigitVal c) else acc

/-- Does a hex digit lead the list (decides whether a `0x` prefix counts). -/
def leadingHexDigit : List Char → Bool
  | [] => false
  | d :: _ => isHexDigitChar d

/-- Magnitude part of `strtol(s, NULL, 16)`: an optional `0x`/`0X` prefix
(consumed only when a hex digit follows), then the leading hex digits.
The `LONG_MAX` overflow clamp of `strtol` is not modelled (sentences carry
two hex digits). -/
def hexMagnitude (l : List Char) : Nat :=
  match l with
  | c0 :: c1 :: rest =>
      if c0 = '0' && (c1 = 'x' || c1 = 'X') && leadingHexDigit rest then
        hexDigits rest 0
      else hexDigits l 0
  | _ => hexDigits l 0

/-- `strtol(s, NULL, 16)`: skip whitespace, optional sign, hex magnitude. -/
def strtol16 (l : List Char) : Int :=
  match l.dropWhile isSpaceChar with
  | [] => 0
  | c :: rest =>
      if c = '-' then -(hexMagnitude rest : Int)
      else if c = '+' then (hexMagnitude rest : Int)
      else (hexMagnitude (c :: rest) : Int)

/-- `(uint8_t)strtol(s, NULL, 16)`: the C long-to-uint8 cast keeps the
value modulo 256. -/
def strtol16u8 (l : List Char) : Nat := ((strtol16 l).emod 256).toNat

/-- `nmeaChecksum` (sdlSpeedometer.c:359-394) on one received buffer.
Returns 1 for an invalid sentence and 0 for a valid one, as the C function
does.  The buffer is truncated at the first `\r`/`\n` (the C loop writes a
NUL there and breaks); `cs` is one past the last `'*'` before that point;
the sentence is valid iff a `'*'` was found and the `$`/`!`-skipping XOR of
the bytes before it equals the `strtol`-parsed hex value after it.  The
side copy of a concatenated second sentence into `str_p2` is an output this
model does not need. -/
def nmeaChecksum (s : List Char) : Nat :=
  let t := s.takeWhile (fun c => ¬(c = '\r' ∨ c = '\n'))
  let cs := starScan t 0 0
  if cs = 0 ∨ xorSkip (t.take (cs - 1)) ≠ strtol16u8 (t.drop cs) then 1 else 0

/-! ### Claim-side checksum definition (refinement comparison)

The claim (spec §4.1/§8) words the acceptance condition as: XOR of all
bytes strictly between the leading `$`/`!` and the `*`, compared with the
two-hex-digit value after the `*`. -/

/-- XOR of the bytes of a character list, with no character skipped —
"the XOR of all bytes", as the spec words it. -/
def claimXor (l : List Char) : Nat := l.foldl (fun a c => a ^^^ byteOf c) 0

/-- Split a list at its first `'*'`: contents before it and after it. -/
def splitAtFirstStar : List Char → Option (List Char × List Char)
  | [] => none
  | c :: rest =>
      if c = '*' then some ([], rest)
      else (splitAtFirstStar rest).map (fun p => (c :: p.1, p.2))

/-- Acceptance condition as the spec sentence states it (this definition
follows the spec words, for comparison against `nmeaChecksum`): the
sentence starts with `$` or `!`, contains a `*`, the two characters after
the `*` are hex digits, and the XOR of all bytes strictly between the
leading `$`/`!` and the `*` equals their value. -/
def claimAccepts (s : List Char) : Bool :=
  match s with
  | [] => false
  | lead :: rest =>
      if lead = '$' ∨ lead = '!' then
        match splitAtFirstStar rest with
        | some (body, [h1, h2]) =>
            isHexDigitChar h1 && isHexDigitChar h2 &&
              (claimXor body == hexDigitVal h1 * 16 + hexDigitVal h2)
        | _ => false
      else false

/-! ## NMEA codec: `getf` (sdlSpeedometer.c:232-259) -/

/-- The comma-counting scan of `getf`: the C loop decrements nothing but
compares a running comma count `npos` against `pos = n-1`; counting down an
`Int` is the same scan.  Returns the suffix right after the matching comma,
or `none` when the buffer runs out first (for `pos < 0` no comma ever
matches, exactly as in C where `npos++ == pos` never holds). -/
def getfAux : Int → List Char → Option (List Char)
  | _, [] => none
  | pos, c :: rest =>
      if c = ',' then
        if pos = 0 then some rest else getfAux (pos - 1) rest
      else getfAux pos rest

/-- `getf(pos, str)` (sdlSpeedometer.c:232-259): copy everything after the
`pos`-th comma (1-based) and cut the copy at the next comma; an unmatched
position yields the untouched zeroed static buffer, i.e. `""`.  The 200
byte static buffer is idealised as unbounded. -/
def getf (pos : Int) (str : String) : String :=
  match getfAux (pos - 1) str.data with
  | none => ""
  | some r => (r.takeWhile (fun c => c ≠ ',')).asString

/-! ### Claim-side field definition (refinement comparison) -/

/-- Comma-split of a character list: `splitFields l` is the list of
comma-delimited fields of `l`, consecutive commas producing empty fields
(this definition follows the spec words for `field`). -/
def splitFields : List Char → List (List Char)
  | [] => [[]]
  | c :: rest =>
      match splitFields rest with
      | [] => [[]]
      | f :: fs => if c = ',' then [] :: f :: fs else (c :: f) :: fs

/-- The spec's `field(sentence, n)`: the n-th comma-delimited field, where
field 0 is the `$talker` head of the sentence, so the 1-based data fields
sit at indices 1, 2, …; an out-of-range index yields `""`, never an
error. -/
def fieldSpec (n : Nat) (s : String) : String :=
  ((splitFields s.data).getD n []).asString

/-! ## NMEA codec: `dms2dd` (sdlSpeedometer.c:396-419) -/

/-- `MAX_LONGITUDE` (sdlSpeedometer.c:396). -/
def MAX_LONGITUDE : ℚ := 180

/-- `MAX_LATITUDE` (sdlSpeedometer.c:397). -/
def MAX_LATITUDE : ℚ := 90

/-- C float-to-int conversion: truncation toward zero. -/
def truncQ (q : ℚ) : ℤ := if 0 ≤ q then ⌊q⌋ else ⌈q⌉

/-- `dms2dd(coordinates, val)` (sdlSpeedometer.c:399-419).  `val` is the
first character of the hint string: `'m'` marks a latitude, `'p'` a
longitude (the callers pass `"m"`/`"p"`).  The two "Check limits" guards
are transcribed exactly as written in C — `coordinates < 0.0 &&
coordinates > MAX` — and `int b = coordinates/100` truncates toward
zero. -/
def dms2dd (coordinates : ℚ) (val : Char) : ℚ :=
  if val = 'm' ∧ (coordinates < 0 ∧ coordinates > MAX_LATITUDE) then 0
  else if val = 'p' ∧ (coordinates < 0 ∧ coordinates > MAX_LONGITUDE) then 0
  else
    let b : ℤ := truncQ (coordinates / 100)
    let c : ℚ := (coordinates / 100 - (b : ℚ)) * 100
    c / 60 + (b : ℚ)

/-! ## Navigation state blackboard (`cnmea`, sdlSpeedometer.h / collectors) -/

/-- `S_TIMEOUT` (sdlSpeedometer.c:51): sentences go stale after this many
seconds without a refresh. -/
def S_TIMEOUT : ℤ := 4

/-- `TRGPS` (sdlSpeedometer.c:52): minimum speed-over-ground (knots)
trusted as real movement from GPS RMC/VTG. -/
def TRGPS : ℚ := 2.5

/-- The fields of the shared `cnmea` blackboard touched by the modelled
collector steps (timestamps are `time_t`, values `float`/strings). -/
structure Cnmea where
  rmc : ℚ := 0
  rmc_ts : ℤ := 0
  rmc_gps_ts : ℤ := 0
  hdm : ℚ := 0
  hdm_ts : ℤ := 0
  hdm_i2cts : ℤ := 0
  roll : ℚ := 0
  roll_i2cts : ℤ := 0
  gll : String := ""
  glo : String := ""
  glns : String := ""
  glne : String := ""
  gll_ts : ℤ := 0
  net_ts : ℤ := 0
  tstr : String := ""
  dstr : String := ""
  rmc_tm_set : ℤ := 0
  deriving Repr, DecidableEq

/-- One iteration tail of `i2cCollector` (sdlSpeedometer.c:674-682) after a
successful heading read: roll and its timestamp are always written; the
shared heading and its i2c timestamp are written only when the NMEA-sourced
heading timestamp has gone stale (`ct - cnmea.hdm_ts > S_TIMEOUT`). -/
def i2cBlackboardStep (st : Cnmea) (ct : ℤ) (hdm roll : ℚ) : Cnmea :=
  let st1 := { st with roll_i2cts := ct, roll := roll }
  if ct - st1.hdm_ts > S_TIMEOUT then { st1 with hdm := hdm, hdm_i2cts := ct }
  else st1

/-- The RMC branch of `threadSerial` (sdlSpeedometer.c:477-498).  The
scalar parameters stand for the parsed fields: `sog = atof(getf(7, buffer))`,
`track = atof(getf(8, buffer))`, and the strings for `getf(3/5/4/6/1/9)`.
`cnmea.rmc` receives the parsed speed unconditionally (the assignment sits
inside the comparison); the speed timestamp, and the heading and heading
timestamp, are guarded as in the source. -/
def rmcUpdateSerial (st : Cnmea) (ct : ℤ) (sog track : ℚ)
    (lat lon ns ew t9 d9 : String) : Cnmea :=
  let st1 := { st with rmc_gps_ts := ct, rmc := sog }
  let st2 :=
    if sog ≥ TRGPS then
      let stA := { st1 with rmc_ts := ct }
      if track ≠ 0 then { stA with hdm := track, hdm_ts := ct } else stA
    else st1
  let st3 : Cnmea := { st2 with gll := lat, glo := lon, glns := ns, glne := ew }
  let st4 :=
    if st3.rmc_tm_set = 0 then { st3 with tstr := t9, dstr := d9, rmc_tm_set := 1 }
    else st3
  if lat.length ≠ 0 then { st4 with gll_ts := ct } else st4

/-- The RMC branch of `nmeaNetCollector` (sdlSpeedometer.c:835-855): same
speed/heading guards as the serial branch, but `net_ts` and `gll_ts` are
set unconditionally at the end. -/
def rmcUpdateNet (st : Cnmea) (ts : ℤ) (sog track : ℚ)
    (lat lon ns ew t9 d9 : String) : Cnmea :=
  let st1 := { st with rmc_gps_ts := ts, rmc := sog }
  let st2 :=
    if sog ≥ TRGPS then
      let stA := { st1 with rmc_ts := ts }
      if track ≠ 0 then { stA with hdm := track, hdm_ts := ts } else stA
    else st1
  let st3 : Cnmea := { st2 with gll := lat, glo := lon, glns := ns, glne := ew }
  let st4 :=
    if st3.rmc_tm_set = 0 then { st3 with tstr := t9, dstr := d9, rmc_tm_set := 1 }
    else st3
  { st4 with net_ts := ts, gll_ts := ts }

/-- The VTG branch common to `threadSerial` (sdlSpeedometer.c:513-524) and
`nmeaNetCollector` (sdlSpeedometer.c:870-881): gated on the RMC speed
timestamp being older than `S_TIMEOUT/2` seconds; inside, the parsed speed
is stored, and the timestamps plus the track-made-good heading are written
under the same `TRGPS`/non-zero guards as RMC (`net_ts` is refreshed here
by both collectors). -/
def vtgUpdate (st : Cnmea) (ct : ℤ) (sog track : ℚ) : Cnmea :=
  if ct - st.rmc_ts > S_TIMEOUT / 2 then
    let st1 := { st with rmc := sog }
    if sog ≥ TRGPS then
      let st2 := { st1 with net_ts := ct, rmc_ts := ct }
      if track ≠ 0 then { st2 with hdm := track, hdm_ts := ct } else st2
    else st1
  else st

/-! ## IMU fusion engine: `i2cReadHdm` tail (i2cSpeedometer.c:336-352) -/

/-- `RDEV` (i2cSpeedometer.c:45): heading results are held inside a
`± RDEV` deadband. -/
def RDEV : ℚ := 2

/-- C `roundf`: round half away from zero, as a rational-valued result. -/
def roundfQ (x : ℚ) : ℚ :=
  if x < 0 then -((⌊-x + 1 / 2⌋ : ℤ) : ℚ) else ((⌊x + 1 / 2⌋ : ℤ) : ℚ)

/-- The `0..360` normalisation of `i2cReadHdm` (i2cSpeedometer.c:340-341):
a single `+= 360` applied when the heading is negative. -/
def normalizeHeading (h : ℚ) : ℚ := if h < 0 then h + 360 else h

/-- The debounce tail of `i2cReadHdm` (i2cSpeedometer.c:343-349): a zero
`curHeading` (the uninitialised `static float`) is first replaced by the
new heading; then the new heading is kept only when it leaves the
`curHeading ± RDEV` deadband, otherwise the held heading is reproduced.
The result is the pair (new `curHeading`, value handed to `roundf`). -/
def hdmDebounce (cur h : ℚ) : ℚ × ℚ :=
  let c := if cur = 0 then h else cur
  if h > c + RDEV ∨ h < c - RDEV then (h, h) else (c, c)

/-- The post-`atan2` tail of `i2cReadHdm` (i2cSpeedometer.c:337-351).
`atanDeg` stands for `180*atan2(magYcomp, magXcomp)/M_PI`, a value in
`(-180, 180]`; `declval` and `coffset` come from the calibration profile.
Result: (new `curHeading` state, returned heading `roundf(heading)`). -/
def i2cHdmFinish (cur atanDeg declval coffset : ℚ) : ℚ × ℚ :=
  let h := normalizeHeading (atanDeg + declval + coffset)
  let p := hdmDebounce cur h
  (p.1, roundfQ p.2)

/-- Successive debounced outputs for a sequence of computed headings,
starting from `curHeading` state `cur` (each output is the `roundf`-ed
return value of `i2cReadHdm`). -/
def debounceRun (cur : ℚ) : List ℚ → List ℚ
  | [] => []
  | h :: rest =>
      let p := hdmDebounce cur h
      roundfQ p.2 :: debounceRun p.1 rest

/-- The hard-iron offset subtracted per axis by `i2cReadHdm`
(i2cSpeedometer.c:305-307): `(calib->min + calib->max) / 2` in C `int`
arithmetic, i.e. division truncating toward zero. -/
def hardIronOffset (mn mx : ℤ) : ℤ := Int.tdiv (mn + mx) 2

/-- The hard-iron application step of `i2cReadHdm`:
`magRaw[i] -= (min + max)/2`. -/
def i2cMagHardIron (raw mn mx : ℤ) : ℤ := raw - hardIronOffset mn mx

/-! ## IMU fusion engine: `i2cReadRoll` (i2cSpeedometer.c:355-418) -/

/-- `G_GAIN` (i2cSpeedometer.c:41): gyro LSB to degrees/second. -/
def G_GAIN : ℚ := 0.070

/-- `AA` (i2cSpeedometer.c:44): complementary filter constant. -/
def AA : ℚ := 0.97

/-- The `static` state of `i2cReadRoll` that survives between calls. -/
structure RollState where
  gyroXangle : ℚ := 0
  gyroYangle : ℚ := 0
  gyroZangle : ℚ := 0
  CFangleX : ℚ := 0
  CFangleY : ℚ := 0
  deriving Repr, DecidableEq

/-- `i2cReadRoll(file, dt, calib)` (i2cSpeedometer.c:355-418).  `gx gy gz`
are the raw gyro axis readings; `accXangleRaw` and `accYangleRaw` stand for
the accelerometer-derived angles `(atan2(acc_raw[1], acc_raw[2]) + M_PI) *
RAD_TO_DEG` and `(atan2(acc_raw[2], acc_raw[0]) + M_PI) * RAD_TO_DEG`
(values in `[0, 360.0001)`).  The function integrates the gyro, shifts the
accelerometer angles, updates the two complementary-filter values — and
returns `roundf(AccXangle) + calib->roffset`, which uses the accelerometer
angle, not the filter output.  Result: (new static state, returned roll). -/
def i2cReadRoll (st : RollState) (dt : ℚ) (gx gy gz : ℤ)
    (accXangleRaw accYangleRaw roffset : ℚ) : RollState × ℚ :=
  let rate_gyr_x := (gx : ℚ) * G_GAIN
  let rate_gyr_y := (gy : ℚ) * G_GAIN
  let rate_gyr_z := (gz : ℚ) * G_GAIN
  let gyroX := st.gyroXangle + rate_gyr_x * dt / 1000
  let gyroY := st.gyroYangle + rate_gyr_y * dt / 1000
  let gyroZ := st.gyroZangle + rate_gyr_z * dt / 1000
  let AccXangle := accXangleRaw - 180
  let AccYangle :=
    if accYangleRaw > 90 then accYangleRaw - 270 else accYangleRaw + 90
  let CFangleX := AA * (st.CFangleX + rate_gyr_x * dt / 1000) + (1 - AA) * AccXangle
  let CFangleY := AA * (st.CFangleY + rate_gyr_y * dt / 1000) + (1 - AA) * AccYangle
  (⟨gyroX, gyroY, gyroZ, CFangleX, CFangleY⟩, roundfQ AccXangle + roffset)

/-- The complementary filter as the spec words it (§4.2): blend a
gyro-integrated angle and an accelerometer-derived angle with weights
0.97 / 0.03 (this definition follows the spec words, for comparison). -/
def complementaryBlend (gyroIntegrated accDerived : ℚ) : ℚ :=
  AA * gyroIntegrated + (1 - AA) * accDerived

/-! ## I2C collector failure counting (sdlSpeedometer.c:565, 667-672) -/

/-- The `retry` bookkeeping of the `i2cCollector` loop: `retry` starts at 0
once for the whole collector (line 565) and is never reset; on each failed
`i2cReadHdm` (negative result) the loop breaks when `retry++ > 3`
(post-increment: compare, then add one) and otherwise continues.  Given
the success/failure outcome of each iteration's read, the result says
whether the collector loop terminates itself within the run. -/
def i2cRetrySteps : List Bool → ℕ → Bool
  | [], _ => false
  | ok :: rest, retry =>
      if ok then i2cRetrySteps rest retry
      else if retry > 3 then true
      else i2cRetrySteps rest (retry + 1)

/-! ## Calibration recorder: `threadCalibrator` (sdlSpeedometer.c:2768-2819) -/

/-- One sampling step of `threadCalibrator` for one axis (lines 2795-2801):
running (max, min), updated by strict comparisons. -/
def calibStep (mm : ℤ × ℤ) (x : ℤ) : ℤ × ℤ :=
  (if x > mm.1 then x else mm.1, if x < mm.2 then x else mm.2)

/-- The whole recording run for one axis: fold over the sampled stream
starting from the initial values `magmax = -32767`, `magmin = 32767`
(lines 2777-2782). -/
def calibRun (l : List ℤ) : ℤ × ℤ := l.foldl calibStep (-32767, 32767)

/-- The per-axis maximum of the non-empty sample stream `x :: l`, as the
spec's round-trip property words it. -/
def streamMax (x : ℤ) (l : List ℤ) : ℤ := l.foldl max x

/-- The per-axis minimum of the non-empty sample stream `x :: l`. -/
def streamMin (x : ℤ) (l : List ℤ) : ℤ := l.foldl min x

/-! ## Claim C3: i2c heading precedence -/

/-- C3: the I2C collector never overwrites the shared heading while an
NMEA-derived heading is fresh.  For every loop iteration at time `ct`, the
blackboard heading and its i2c timestamp take the fused compass value
exactly when `ct - hdm_ts` exceeds the 4-second window `S_TIMEOUT`, and
otherwise keep their previous values; in particular, if a network collector
wrote heading `v` at time `T`, an i2c write attempt at `T + 1` leaves the
blackboard heading equal to `v`. -/
theorem i2cCollector_heading_precedence :
    (∀ (st : Cnmea) (ct : ℤ) (h r : ℚ),
      ((i2cBlackboardStep st ct h r).hdm =
        if ct - st.hdm_ts > S_TIMEOUT then h else st.hdm) ∧
      ((i2cBlackboardStep st ct h r).hdm_i2cts =
        if ct - st.hdm_ts > S_TIMEOUT then ct else st.hdm_i2cts) ∧
      ((i2cBlackboardStep st ct h r).hdm_ts = st.hdm_ts)) ∧
    (∀ (T : ℤ) (v : ℚ) (st : Cnmea) (h r : ℚ),
      (i2cBlackboardStep { st with hdm := v, hdm_ts := T } (T + 1) h r).hdm = v) := by
  constructor
  · intro st ct h r
    simp only [i2cBlackboardStep, S_TIMEOUT]
    split_ifs <;> simp_all
  · intro T v st h r
    simp only [i2cBlackboardStep, S_TIMEOUT]
    have hne : ¬(T + 1 - T > 4) := by omega
    simp [hne]

/-! ## Claim C10: RMC/VTG speed gating -/

/-- C10: in the RMC branches of the serial and network collectors and in
the shared VTG branch, the speed timestamp `rmc_ts` is refreshed exactly
when the parsed speed-over-ground reaches `TRGPS` (2.5 knots), and the
track-made-good heading `hdm` with its timestamp `hdm_ts` is written
exactly when additionally the parsed track is non-zero (for VTG, all under
its staleness gate); RMC position fields are written regardless of the
speed. -/
theorem rmc_vtg_speed_gate :
    (∀ (st : Cnmea) (ct : ℤ) (sog track : ℚ) (lat lon ns ew t9 d9 : String),
      ((rmcUpdateSerial st ct sog track lat lon ns ew t9 d9).rmc_ts =
        if sog ≥ TRGPS then ct else st.rmc_ts) ∧
      ((rmcUpdateSerial st ct sog track lat lon ns ew t9 d9).hdm =
        if sog ≥ TRGPS ∧ track ≠ 0 then track else st.hdm) ∧
      ((rmcUpdateSerial st ct sog track lat lon ns ew t9 d9).hdm_ts =
        if sog ≥ TRGPS ∧ track ≠ 0 then ct else st.hdm_ts) ∧
      (rmcUpdateSerial st ct sog track lat lon ns ew t9 d9).gll = lat ∧
      (rmcUpdateSerial st ct sog track lat lon ns ew t9 d9).glo = lon ∧
      (rmcUpdateSerial st ct sog track lat lon ns ew t9 d9).glns = ns ∧
      (rmcUpdateSerial st ct sog track lat lon ns ew t9 d9).glne = ew ∧
      (rmcUpdateSerial st ct sog track lat lon ns ew t9 d9).rmc_gps_ts = ct) ∧
    (∀ (st : Cnmea) (ts : ℤ) (sog track : ℚ) (lat lon ns ew t9 d9 : String),
      ((rmcUpdateNet st ts sog track lat lon ns ew t9 d9).rmc_ts =
        if sog ≥ TRGPS then ts else st.rmc_ts) ∧
      ((rmcUpdateNet st ts sog track lat lon ns ew t9 d9).hdm =
        if sog ≥ TRGPS ∧ track ≠ 0 then track else st.hdm) ∧
      ((rmcUpdateNet st ts sog track lat lon ns ew t9 d9).hdm_ts =
        if sog ≥ TRGPS ∧ track ≠ 0 then ts else st.hdm_ts) ∧
      (rmcUpdateNet st ts sog track lat lon ns ew t9 d9).gll = lat ∧
      (rmcUpdateNet st ts sog track lat lon ns ew t9 d9).glo = lon) ∧
    (∀ (st : Cnmea) (ct : ℤ) (sog track : ℚ),
      ((vtgUpdate st ct sog track).rmc_ts =
        if ct - st.rmc_ts > S_TIMEOUT / 2 ∧ sog ≥ TRGPS then ct else st.rmc_ts) ∧
      ((vtgUpdate st ct sog track).hdm =
        if ct - st.rmc_ts > S_TIMEOUT / 2 ∧ sog ≥ TRGPS ∧ track ≠ 0 then track
        else st.hdm) ∧
      ((vtgUpdate st ct sog track).hdm_ts =
        if ct - st.rmc_ts > S_TIMEOUT / 2 ∧ sog ≥ TRGPS ∧ track ≠ 0 then ct
        else st.hdm_ts)) := by
  refine ⟨?_, ?_, ?_⟩
  · intro st ct sog track lat lon ns ew t9 d9
    simp only [rmcUpdateSerial]
    split_ifs <;> simp_all
  · intro st ts sog track lat lon ns ew t9 d9
    simp only [rmcUpdateNet]
    split_ifs <;> simp_all
  · intro st ct sog track
    simp only [vtgUpdate]
    split_ifs <;> simp_all

/-! ## Claim C5: roll pipeline output -/

/-- C5 counterexample: at a concrete invocation (zero state, `dt = 260`,
zero gyro, accelerometer X angle raw value 190 i.e. `AccXangle = 10`, zero
roll offset) the returned roll is 10, while the complementary-filter blend
of the gyro-integrated angle and the accelerometer angle (plus the offset)
is `0.97·0 + 0.03·10 = 0.3`; the claim that the returned roll equals the
blend is therefore false on the code. -/
theorem i2cReadRoll_blend_cex :
    (i2cReadRoll ⟨0, 0, 0, 0, 0⟩ 260 0 0 0 190 0 0).2 = 10 ∧
    complementaryBlend ((0 : ℚ) + 0 * G_GAIN * 260 / 1000) (190 - 180) + 0 = 3 / 10 ∧
    (10 : ℚ) ≠ 3 / 10 := by
  refine ⟨?_, ?_, by norm_num⟩
  · simp only [i2cReadRoll]
    norm_num [roundfQ]
  · unfold complementaryBlend AA G_GAIN
    norm_num

/-- C5 amended: `i2cReadRoll` computes the complementary-filter blend
(weights 0.97/0.03) and stores it in its `CFangleX`/`CFangleY` state, but
the value it returns is `roundf` of the accelerometer-derived X angle plus
the configured roll offset — the filter output is not returned. -/
theorem i2cReadRoll_amended :
    ∀ (st : RollState) (dt : ℚ) (gx gy gz : ℤ) (axr ayr roff : ℚ),
      (i2cReadRoll st dt gx gy gz axr ayr roff).2 = roundfQ (axr - 180) + roff ∧
      (i2cReadRoll st dt gx gy gz axr ayr roff).1.CFangleX =
        complementaryBlend (st.CFangleX + (gx : ℚ) * G_GAIN * dt / 1000) (axr - 180) ∧
      (i2cReadRoll st dt gx gy gz axr ayr roff).1.gyroXangle =
        st.gyroXangle + (gx : ℚ) * G_GAIN * dt / 1000 := by
  intro st dt gx gy gz axr ayr roff
  unfold i2cReadRoll complementaryBlend
  refine ⟨rfl, by ring_nf, by ring_nf⟩

/-! ## Claim C6: dms2dd conversion and limit check -/

/-- C6: the conversion itself splits at the hundreds place and divides the
minutes by 60 — `dms2dd(4807.038, lat)` is exactly 48.1173 — but the
"Check limits" guards are unsatisfiable conjunctions
(`coordinates < 0 && coordinates > MAX`), so an out-of-range latitude such
as 20000.0 is converted to 200 instead of being rejected with 0. -/
theorem dms2dd_limit_guard_bug :
    dms2dd (4807038 / 1000) 'm' = 481173 / 10000 ∧
    dms2dd 20000 'm' = 200 ∧ (200 : ℚ) ≠ 0 ∧
    (∀ x : ℚ, ¬(x < 0 ∧ x > MAX_LATITUDE)) ∧
    (∀ x : ℚ, ¬(x < 0 ∧ x > MAX_LONGITUDE)) := by
  refine ⟨?_, ?_, by norm_num, ?_, ?_⟩
  · unfold dms2dd truncQ MAX_LATITUDE MAX_LONGITUDE
    norm_num
  · unfold dms2dd truncQ MAX_LATITUDE MAX_LONGITUDE
    norm_num
  · intro x ⟨h1, h2⟩
    unfold MAX_LATITUDE at h2
    linarith
  · intro x ⟨h1, h2⟩
    unfold MAX_LONGITUDE at h2
    linarith

/-! ## Claim C4: heading debounce -/

/-- C4 counterexample: the held heading is kept in a `static float` whose
zero value doubles as the "uninitialised" sentinel (`if (!curHeading)
curHeading = heading;`).  After the computed heading 0 is accepted (it
leaves the deadband of the previous value 10), the next computed heading 1
is accepted as well even though it lies well inside the 2° deadband of the
last accepted heading 0 — the observable output sequence for computed
headings `[0, 1]` from held heading 10 is `[0, 1]`, not `[0, 0]`. -/
theorem hdmDebounce_sentinel_cex :
    debounceRun 10 [0, 1] = [0, 1] ∧
    ¬((1 : ℚ) > 0 + RDEV ∨ (1 : ℚ) < 0 - RDEV) ∧ (1 : ℚ) ≠ 0 := by
  refine ⟨?_, ?_, by norm_num⟩
  · norm_num [debounceRun, hdmDebounce, RDEV, roundfQ]
  · norm_num [RDEV]

/-- C4 amended: for every computed heading `h` and non-zero last accepted
heading `cur`, `h` becomes the new held heading exactly when it leaves the
`cur ± 2°` deadband, and otherwise the held heading is reproduced (when the
held value is the zero sentinel — uninitialised, or an accepted heading of
exactly 0 — the new heading is always adopted); feeding computed headings
`[10, 10.4, 11.9, 10.1]` from a fresh state yields the observable output
sequence `[10, 10, 10, 10]`. -/
theorem hdmDebounce_amended :
    (∀ cur h : ℚ, cur ≠ 0 →
      ((h > cur + RDEV ∨ h < cur - RDEV) → hdmDebounce cur h = (h, h)) ∧
      (¬(h > cur + RDEV ∨ h < cur - RDEV) → hdmDebounce cur h = (cur, cur))) ∧
    debounceRun 0 [10, 10.4, 11.9, 10.1] = [10, 10, 10, 10] := by
  constructor
  · intro cur h hc
    constructor <;> intro hcond <;> simp [hdmDebounce, hc, hcond]
  · norm_num [debounceRun, hdmDebounce, RDEV, roundfQ]

/-- C4 witness: the amended deadband rule at the concrete held heading 10
and computed heading 11 (inside the deadband: the held heading is kept). -/
theorem hdmDebounce_amended_witness :
    hdmDebounce 10 11 = (10, 10) :=
  (hdmDebounce_amended.1 10 11 (by norm_num)).2 (by norm_num [RDEV])

/-! ## Claim C7: heading range -/

/-- C7 counterexample: with `atan2` contribution 0 degrees (realisable:
`atan2(0, x) = 0` for positive `x`), declination 400 and heading offset 0,
the computed heading is 400 and the single `if (heading < 0) heading +=
360` normalisation leaves it at 400, so the returned heading is 400,
outside `[0, 360)` — the claim fails for arbitrary calibration profiles. -/
theorem i2cHdm_range_cex :
    (i2cHdmFinish 0 0 400 0).2 = 400 ∧
    ¬(0 ≤ (400 : ℚ) ∧ (400 : ℚ) < 360) ∧
    (-180 : ℚ) < 0 ∧ (0 : ℚ) ≤ 180 := by
  refine ⟨?_, by norm_num, by norm_num, by norm_num⟩
  norm_num [i2cHdmFinish, normalizeHeading, hdmDebounce, RDEV, roundfQ]

/-- Bounds of C `roundf` on a value in `[0, 360)`: the rounded result lies
in `[0, 360]` (note 360 is reachable, e.g. from 359.7). -/
theorem roundfQ_bounds (x : ℚ) (hx : 0 ≤ x) (hlt : x < 360) :
    0 ≤ roundfQ x ∧ roundfQ x ≤ 360 := by
  unfold roundfQ
  rw [if_neg (not_lt.mpr hx)]
  constructor
  · have h0 : (0 : ℤ) ≤ ⌊x + 1 / 2⌋ := Int.le_floor.mpr (by push_cast; linarith)
    exact_mod_cast h0
  · have h1 : ⌊x + 1 / 2⌋ < 361 := Int.floor_lt.mpr (by push_cast; linarith)
    have h2 : ⌊x + 1 / 2⌋ ≤ 360 := by omega
    exact_mod_cast h2

/-- Both components of the debounce result are either the new heading or
the previously held one. -/
theorem hdmDebounce_mem (cur h : ℚ) :
    ((hdmDebounce cur h).1 = h ∨ (hdmDebounce cur h).1 = cur) ∧
    ((hdmDebounce cur h).2 = h ∨ (hdmDebounce cur h).2 = cur) := by
  simp only [hdmDebounce]
  split_ifs <;> simp_all

/-- C7 amended: the heading stays in range only for bounded calibration
offsets.  For every `atan2` contribution in `(-180, 180]`, every
declination/heading-offset pair summing into `[-180, 180)` and every held
heading in `[0, 360)`: the normalised computed heading lies in `[0, 360)`,
the updated held heading lies in `[0, 360)`, and the rounded return value
lies in `[0, 360]` (the final `roundf` can produce exactly 360). -/
theorem i2cHdm_range_amended :
    ∀ atanDeg d c cur : ℚ, -180 < atanDeg → atanDeg ≤ 180 →
      -180 ≤ d + c → d + c < 180 → 0 ≤ cur → cur < 360 →
      (0 ≤ normalizeHeading (atanDeg + d + c) ∧
        normalizeHeading (atanDeg + d + c) < 360) ∧
      (0 ≤ (i2cHdmFinish cur atanDeg d c).1 ∧ (i2cHdmFinish cur atanDeg d c).1 < 360) ∧
      (0 ≤ (i2cHdmFinish cur atanDeg d c).2 ∧ (i2cHdmFinish cur atanDeg d c).2 ≤ 360) := by
  intro atanDeg d c cur h1 h2 h3 h4 h5 h6
  have hnorm : 0 ≤ normalizeHeading (atanDeg + d + c) ∧
      normalizeHeading (atanDeg + d + c) < 360 := by
    unfold normalizeHeading
    split_ifs with hneg
    · constructor <;> linarith
    · constructor <;> linarith
  refine ⟨hnorm, ?_, ?_⟩
  · have hm := (hdmDebounce_mem cur (normalizeHeading (atanDeg + d + c))).1
    simp only [i2cHdmFinish]
    rcases hm with hm | hm <;> rw [hm]
    · exact ⟨hnorm.1, hnorm.2⟩
    · exact ⟨h5, h6⟩
  · have hm := (hdmDebounce_mem cur (normalizeHeading (atanDeg + d + c))).2
    simp only [i2cHdmFinish]
    rcases hm with hm | hm <;> rw [hm]
    · exact roundfQ_bounds _ hnorm.1 hnorm.2
    · exact roundfQ_bounds _ h5 h6

/-- C7 witness: the amended range statement at `atan2` contribution 10°,
declination 5°, offset 0°, held heading 100°. -/
theorem i2cHdm_range_amended_witness :
    (0 ≤ normalizeHeading ((10 : ℚ) + 5 + 0) ∧
      normalizeHeading ((10 : ℚ) + 5 + 0) < 360) ∧
    (0 ≤ (i2cHdmFinish 100 10 5 0).1 ∧ (i2cHdmFinish 100 10 5 0).1 < 360) ∧
    (0 ≤ (i2cHdmFinish 100 10 5 0).2 ∧ (i2cHdmFinish 100 10 5 0).2 ≤ 360) :=
  i2cHdm_range_amended 10 5 0 100 (by norm_num) (by norm_num) (by norm_num)
    (by norm_num) (by norm_num) (by norm_num)

/-! ## Claim C8: i2c read-failure budget -/

/-- C8 counterexample: a run in which every read failure is isolated (each
failure run has length 1, far below the budget of 3, and is followed by a
successful read) still terminates the collector loop, because `retry` is
never reset on success — the counter is cumulative over the collector's
lifetime.  The trace has 5 failures in total. -/
theorem i2cRetry_reset_cex :
    i2cRetrySteps [false, true, false, true, false, true, false, true, false, true] 0 = true ∧
    List.count false [false, true, false, true, false, true, false, true, false, true] = 5 :=
  ⟨rfl, rfl⟩

/-- The `retry` loop terminates from counter value `r` exactly when the
trace carries at least `5 - min r 4` failures. -/
theorem i2cRetrySteps_iff_count :
    ∀ (l : List Bool) (r : ℕ), i2cRetrySteps l r = true ↔ 5 ≤ l.count false + min r 4 := by
  intro l
  induction l with
  | nil =>
      intro r
      simp only [i2cRetrySteps, List.count_nil]
      constructor
      · intro h; cases h
      · intro h; omega
  | cons ok rest ih =>
      intro r
      cases ok
      · have hstep : i2cRetrySteps (false :: rest) r =
            if r > 3 then true else i2cRetrySteps rest (r + 1) := rfl
        have hcount : List.count false (false :: rest) = List.count false rest + 1 := by
          simp [List.count_cons]
        rw [hstep, hcount]
        split_ifs with hr
        · constructor
          · intro _; omega
          · intro _; rfl
        · rw [ih (r + 1)]
          omega
      · have hstep : i2cRetrySteps (true :: rest) r = i2cRetrySteps rest r := rfl
        have hcount : List.count false (true :: rest) = List.count false rest := by
          simp [List.count_cons]
        rw [hstep, hcount, ih r]

/-- C8 amended: the i2c collector's failure counter is cumulative, not
consecutive — no successful read ever resets it — and the loop breaks
exactly when the lifetime total of failed reads reaches 5 (the
post-incremented counter first exceeds the budget constant 3 on the fifth
failure). -/
theorem i2cRetry_amended :
    ∀ l : List Bool, i2cRetrySteps l 0 = true ↔ 5 ≤ l.count false := by
  intro l
  rw [i2cRetrySteps_iff_count l 0]
  norm_num

/-! ## Claim C9: calibration extrema round-trip -/

/-- C9 counterexample: the recorder's running maximum starts at `-32767`
(not the `int16` minimum `-32768`), so for the one-sample stream
`[-32768]` the recorded maximum is `-32767` while the stream maximum is
`-32768` — the recorded extrema are not exactly the stream extrema. -/
theorem calibRun_extrema_cex :
    calibRun [-32768] = (-32767, -32768) ∧
    streamMax (-32768) [] = -32768 ∧
    (calibRun [-32768]).1 ≠ streamMax (-32768) [] := by
  refine ⟨by decide, by decide, by decide⟩

/-- One recorder step is a simultaneous max/min update. -/
theorem calibStep_eq (mm : ℤ × ℤ) (x : ℤ) : calibStep mm x = (max mm.1 x, min mm.2 x) := by
  unfold calibStep
  rcases mm with ⟨a, b⟩
  simp only [Prod.mk.injEq]
  constructor
  · rcases lt_or_le a x with h | h
    · rw [if_pos h, max_eq_right h.le]
    · rw [if_neg (not_lt.mpr h), max_eq_left h]
  · rcases lt_or_le x b with h | h
    · rw [if_pos h, min_eq_right h.le]
    · rw [if_neg (not_lt.mpr h), min_eq_left h]

/-- The recorder fold decomposes into a max-fold and a min-fold. -/
theorem calib_foldl (l : List ℤ) :
    ∀ a b : ℤ, l.foldl calibStep (a, b) = (l.foldl max a, l.foldl min b) := by
  induction l with
  | nil => intro a b; rfl
  | cons x rest ih =>
      intro a b
      simp only [List.foldl_cons, calibStep_eq]
      exact ih (max a x) (min b x)

/-- The initial value is a lower bound of a max-fold. -/
theorem le_foldl_max (l : List ℤ) : ∀ x : ℤ, x ≤ l.foldl max x := by
  induction l with
  | nil => intro x; exact le_refl x
  | cons c rest ih =>
      intro x
      simp only [List.foldl_cons]
      exact le_trans (le_max_left x c) (ih (max x c))

/-- The initial value is an upper bound of a min-fold. -/
theorem foldl_min_le (l : List ℤ) : ∀ x : ℤ, l.foldl min x ≤ x := by
  induction l with
  | nil => intro x; exact le_refl x
  | cons c rest ih =>
      intro x
      simp only [List.foldl_cons]
      exact le_trans (ih (min x c)) (min_le_left x c)

/-- C9 amended: for every non-empty sample stream whose values stay inside
`[-32767, 32767]` (excluding the unreachable-in-practice `int16` minimum
that the initialisation constant misses), the recorded per-axis max/min are
exactly the stream extrema, the minimum does not exceed the maximum, and
the hard-iron step of the fusion engine subtracts the truncated midpoint
`(min + max) / 2` of the recorded extrema. -/
theorem calibRun_amended :
    ∀ (x : ℤ) (l : List ℤ), (∀ y ∈ x :: l, -32767 ≤ y ∧ y ≤ 32767) →
      calibRun (x :: l) = (streamMax x l, streamMin x l) ∧
      streamMin x l ≤ streamMax x l ∧
      (∀ raw : ℤ, i2cMagHardIron raw (streamMin x l) (streamMax x l) =
        raw - Int.tdiv (streamMin x l + streamMax x l) 2) := by
  intro x l hbound
  have hx := hbound x (List.mem_cons_self x l)
  refine ⟨?_, ?_, fun raw => rfl⟩
  · unfold calibRun streamMax streamMin
    simp only [List.foldl_cons, calibStep_eq]
    rw [calib_foldl]
    rw [max_eq_right (by omega : (-32767 : ℤ) ≤ x), min_eq_right (by omega : x ≤ (32767 : ℤ))]
  · exact le_trans (foldl_min_le l x) (le_foldl_max l x)

/-- C9 witness: the amended round-trip at the concrete stream `[3, 7, 1]`
(extrema 7 and 1, hard-iron offset 4). -/
theorem calibRun_amended_witness :
    calibRun [3, 7, 1] = (streamMax 3 [7, 1], streamMin 3 [7, 1]) ∧
    streamMin 3 [7, 1] ≤ streamMax 3 [7, 1] ∧
    (∀ raw : ℤ, i2cMagHardIron raw (streamMin 3 [7, 1]) (streamMax 3 [7, 1]) =
      raw - Int.tdiv (streamMin 3 [7, 1] + streamMax 3 [7, 1]) 2) :=
  calibRun_amended 3 [7, 1] (by decide)

/-! ## Claim C2: field extraction -/

theorem splitFields_ne_nil (l : List Char) : splitFields l ≠ [] := by
  induction l with
  | nil => simp [splitFields]
  | cons c rest ih =>
      rcases h : splitFields rest with _ | ⟨f, fs⟩
      · exact absurd h ih
      · simp only [splitFields, h]
        split_ifs <;> simp

/-- Splitting after a leading comma prepends one empty field. -/
theorem splitFields_comma (rest : List Char) :
    splitFields (',' :: rest) = [] :: splitFields rest := by
  rcases h : splitFields rest with _ | ⟨f, fs⟩
  · exact absurd h (splitFields_ne_nil rest)
  · simp [splitFields, h]

/-- A leading non-comma character only grows field 0: the fields at
positions 1, 2, … are unchanged. -/
theorem splitFields_other (c : Char) (hc : c ≠ ',') (rest : List Char) (n : ℕ) :
    (splitFields (c :: rest)).getD (n + 1) [] = (splitFields rest).getD (n + 1) [] := by
  rcases h : splitFields rest with _ | ⟨f, fs⟩
  · exact absurd h (splitFields_ne_nil rest)
  · simp [splitFields, h, hc]

/-- Field 0 of the split is the run of characters before the first comma. -/
theorem splitFields_head (l : List Char) :
    (splitFields l).getD 0 [] = l.takeWhile (fun c => c ≠ ',') := by
  induction l with
  | nil => simp [splitFields]
  | cons c rest ih =>
      by_cases hc : c = ','
      · subst hc
        rw [splitFields_comma]
        simp [List.takeWhile_cons]
      · rcases h : splitFields rest with _ | ⟨f, fs⟩
        · exact absurd h (splitFields_ne_nil rest)
        · simp only [splitFields, h, if_neg hc, List.getD_cons_zero]
          rw [List.takeWhile_cons, if_pos (by simp [hc])]
          rw [h] at ih
          simp only [List.getD_cons_zero] at ih
          rw [ih]

theorem getfAux_comma_zero (rest : List Char) : getfAux 0 (',' :: rest) = some rest := by
  simp [getfAux]

theorem getfAux_comma (pos : ℤ) (hp : pos ≠ 0) (rest : List Char) :
    getfAux pos (',' :: rest) = getfAux (pos - 1) rest := by
  simp [getfAux, hp]

theorem getfAux_other (c : Char) (hc : c ≠ ',') (pos : ℤ) (rest : List Char) :
    getfAux pos (c :: rest) = getfAux pos rest := by
  simp [getfAux, hc]

/-- The comma scan of `getf` computes exactly the `(pos+1)`-th field of the
comma split (cut at the next comma, empty when the position is beyond the
last comma). -/
theorem getfAux_eq (l : List Char) :
    ∀ pos : ℤ, 0 ≤ pos →
      (match getfAux pos l with
       | none => ([] : List Char)
       | some r => r.takeWhile (fun c => c ≠ ',')) =
        (splitFields l).getD (pos.toNat + 1) [] := by
  induction l with
  | nil =>
      intro pos hpos
      simp [getfAux, splitFields]
  | cons c rest ih =>
      intro pos hpos
      by_cases hc : c = ','
      · subst hc
        by_cases hp : pos = 0
        · subst hp
          rw [getfAux_comma_zero, splitFields_comma]
          simp only [Int.toNat_zero, List.getD_cons_succ, List.getD_cons_zero]
          exact (splitFields_head rest).symm
        · rw [getfAux_comma pos hp, splitFields_comma]
          have hge : (0:ℤ) ≤ pos - 1 := by omega
          have htn : (pos - 1).toNat + 1 = pos.toNat := by omega
          rw [ih (pos - 1) hge, htn]
          rcases hn : pos.toNat with _ | m
          · omega
          · simp [List.getD_cons_succ]
      · rw [getfAux_other c hc, splitFields_other c hc]
        exact ih pos hpos

/-- C2: `getf` returns the n-th comma-delimited field (1-based, with the
`$talker` head of the sentence as field 0), treating consecutive commas as
an empty field and every out-of-range index as the empty string — for all
indices n ≥ 1 it agrees with the spec-side `fieldSpec`; on the claim's
example sentence, index 7 yields `"022.4"` and index 99 yields `""`. -/
theorem getf_matches_fieldSpec :
    (∀ (s : String) (n : ℕ), 1 ≤ n → getf (n : ℤ) s = fieldSpec n s) ∧
    getf 7 "$GPRMC,123519,A,4807.038,N,01131.000,E,022.4,084.4,230394,003.1,W*6A" =
      "022.4" ∧
    getf 99 "$GPRMC,123519,A,4807.038,N,01131.000,E,022.4,084.4,230394,003.1,W*6A" =
      "" := by
  refine ⟨?_, by decide, by decide⟩
  intro s n hn
  unfold getf fieldSpec
  have hge : (0:ℤ) ≤ (n : ℤ) - 1 := by omega
  have heq := getfAux_eq s.data ((n : ℤ) - 1) hge
  have htn : ((n : ℤ) - 1).toNat + 1 = n := by omega
  rw [htn] at heq
  rw [← heq]
  rcases hg : getfAux ((n : ℤ) - 1) s.data with _ | r
  · simp only [hg]
    rfl
  · simp only [hg]

/-- C2 witness: the general field theorem at index 3 of a small sentence. -/
theorem getf_matches_fieldSpec_witness :
    getf ((3 : ℕ) : ℤ) "a,b,,d,e" = fieldSpec 3 "a,b,,d,e" :=
  getf_matches_fieldSpec.1 "a,b,,d,e" 3 (by norm_num)

/-! ## Claim C1: NMEA checksum validation -/

/-- C1 counterexample: the C scan skips every `$` and `!` byte before the
`*`, not only the leading one.  The sentence `$A$A*24` carries exactly the
claim's checksum — the XOR of all bytes strictly between the leading `$`
and the `*` (`A`, `$`, `A`) is 0x24 — so the claim accepts it, but
`nmeaChecksum` also skips the inner `$`, computes 0, and rejects the
sentence (returns 1). -/
theorem nmeaChecksum_claim_cex :
    claimAccepts "$A$A*24".data = true ∧ nmeaChecksum "$A$A*24".data = 1 := by
  constructor <;> decide

theorem xor_cancel_left (a b c : ℕ) (h : a ^^^ b = a ^^^ c) : b = c := by
  have h2 := congrArg (fun x => a ^^^ x) h
  simpa [← Nat.xor_assoc] using h2

/-- Running the checksum fold from an arbitrary accumulator XORs it with
the fold from zero. -/
theorem xorSkip_init (l : List Char) :
    ∀ a : ℕ, l.foldl (fun x c => if c = '$' ∨ c = '!' then x else x ^^^ byteOf c) a =
      a ^^^ xorSkip l := by
  induction l with
  | nil => intro a; simp [xorSkip]
  | cons c rest ih =>
      intro a
      by_cases hc : c = '$' ∨ c = '!'
      · simp only [xorSkip, List.foldl_cons, if_pos hc]
        exact ih a
      · simp only [xorSkip, List.foldl_cons, if_neg hc]
        rw [ih (a ^^^ byteOf c), ih (0 ^^^ byteOf c), Nat.zero_xor, Nat.xor_assoc]

theorem xorSkip_cons (c : Char) (rest : List Char) :
    xorSkip (c :: rest) =
      if c = '$' ∨ c = '!' then xorSkip rest else byteOf c ^^^ xorSkip rest := by
  by_cases hc : c = '$' ∨ c = '!'
  · simp only [xorSkip, List.foldl_cons, if_pos hc]
  · simp only [xorSkip, List.foldl_cons, if_neg hc]
    rw [xorSkip_init rest (0 ^^^ byteOf c), Nat.zero_xor]
    rfl

theorem xorSkip_append (l1 l2 : List Char) :
    xorSkip (l1 ++ l2) = xorSkip l1 ^^^ xorSkip l2 := by
  unfold xorSkip
  rw [List.foldl_append]
  exact xorSkip_init l2 _

theorem starScan_append (l1 : List Char) :
    ∀ (l2 : List Char) (i cs : ℕ),
      starScan (l1 ++ l2) i cs = starScan l2 (i + l1.length) (starScan l1 i cs) := by
  induction l1 with
  | nil => intro l2 i cs; simp [starScan]
  | cons c rest ih =>
      intro l2 i cs
      show starScan (rest ++ l2) (i + 1) (if c = '*' then i + 1 else cs) = _
      rw [ih]
      show _ = starScan l2 (i + (rest.length + 1)) (starScan rest (i + 1) _)
      congr 1
      omega

theorem starScan_no_star (l : List Char) :
    ∀ (i cs : ℕ), (∀ c ∈ l, c ≠ '*') → starScan l i cs = cs := by
  induction l with
  | nil => intro i cs _; rfl
  | cons c rest ih =>
      intro i cs hmem
      have hc : c ≠ '*' := hmem c (List.mem_cons_self c rest)
      simp only [starScan, if_neg hc]
      exact ih (i + 1) cs (fun x hx => hmem x (List.mem_cons_of_mem c hx))

theorem takeWhile_all {p : Char → Bool} (l : List Char) (h : ∀ c ∈ l, p c = true) :
    l.takeWhile p = l := by
  induction l with
  | nil => rfl
  | cons c rest ih =>
      rw [List.takeWhile_cons, if_pos (h c (List.mem_cons_self c rest))]
      rw [ih (fun x hx => h x (List.mem_cons_of_mem c hx))]

theorem mem_of_mem_takeWhile {p : Char → Bool} {c : Char} (l : List Char)
    (h : c ∈ l.takeWhile p) : c ∈ l :=
  (List.takeWhile_sublist p).subset h

theorem ne_of_hexFalse (c x : Char) (h : isHexDigitChar c = true)
    (hx : isHexDigitChar x = false) : c ≠ x := by
  intro he
  rw [he, hx] at h
  exact Bool.false_ne_true h

theorem hexDigitVal_le (c : Char) : hexDigitVal c ≤ 15 := by
  unfold hexDigitVal
  split_ifs <;> omega

theorem hex_not_space (c : Char) (h : isHexDigitChar c = true) : isSpaceChar c = false := by
  simp only [isHexDigitChar, decide_eq_true_eq] at h
  simp only [isSpaceChar, decide_eq_false_iff_not]
  omega

/-- `strtol` on exactly two hex digits, cast to `uint8_t`, is their
two-digit value. -/
theorem strtol16u8_pair (d1 d2 : Char) (h1 : isHexDigitChar d1 = true)
    (h2 : isHexDigitChar d2 = true) :
    strtol16u8 [d1, d2] = hexDigitVal d1 * 16 + hexDigitVal d2 := by
  have hns := hex_not_space d1 h1
  have hm : d1 ≠ '-' := ne_of_hexFalse d1 '-' h1 (by decide)
  have hp : d1 ≠ '+' := ne_of_hexFalse d1 '+' h1 (by decide)
  have hdrop : List.dropWhile isSpaceChar [d1, d2] = [d1, d2] := by
    rw [List.dropWhile_cons, hns]
    simp
  have hval : hexDigits [d1, d2] 0 = hexDigitVal d1 * 16 + hexDigitVal d2 := by
    simp only [hexDigits, h1, h2, if_true]
    ring_nf
  have hmag : hexMagnitude [d1, d2] = hexDigitVal d1 * 16 + hexDigitVal d2 := by
    simp only [hexMagnitude]
    rw [if_neg (by simp [leadingHexDigit]), hval]
  have hstr : strtol16 [d1, d2] = (hexDigitVal d1 * 16 + hexDigitVal d2 : ℤ) := by
    simp only [strtol16, hdrop]
    rw [if_neg hm, if_neg hp, hmag]
    push_cast
    ring
  have hle : hexDigitVal d1 * 16 + hexDigitVal d2 < 256 := by
    have hv1 := hexDigitVal_le d1
    have hv2 := hexDigitVal_le d2
    omega
  unfold strtol16u8
  rw [hstr]
  have hcast : ((hexDigitVal d1 * 16 + hexDigitVal d2 : ℤ)).emod 256 =
      ((hexDigitVal d1 : ℤ) * 16 + (hexDigitVal d2 : ℤ)) % 256 := by
    norm_cast
  rw [hcast]
  omega

/-- `nmeaChecksum` on a well-formed single sentence
`lead · body · * · d1 d2` (no `*` in the body, no line ends, hex digits at
the tail): the verdict compares the `$`/`!`-skipping XOR of the body
against the two-digit hex value. -/
theorem nmeaChecksum_wf (lead : Char) (body : List Char) (d1 d2 : Char)
    (hl : lead = '$' ∨ lead = '!')
    (hb : ∀ c ∈ body, c ≠ '*' ∧ c ≠ '\r' ∧ c ≠ '\n')
    (h1 : isHexDigitChar d1 = true) (h2 : isHexDigitChar d2 = true) :
    nmeaChecksum (lead :: body ++ '*' :: [d1, d2]) =
      if xorSkip body = hexDigitVal d1 * 16 + hexDigitVal d2 then 0 else 1 := by
  have hlr : lead ≠ '\r' ∧ lead ≠ '\n' ∧ lead ≠ '*' := by
    rcases hl with rfl | rfl <;> exact ⟨by decide, by decide, by decide⟩
  have hd1 : d1 ≠ '\r' ∧ d1 ≠ '\n' ∧ d1 ≠ '*' :=
    ⟨ne_of_hexFalse _ _ h1 (by decide), ne_of_hexFalse _ _ h1 (by decide),
      ne_of_hexFalse _ _ h1 (by decide)⟩
  have hd2 : d2 ≠ '\r' ∧ d2 ≠ '\n' ∧ d2 ≠ '*' :=
    ⟨ne_of_hexFalse _ _ h2 (by decide), ne_of_hexFalse _ _ h2 (by decide),
      ne_of_hexFalse _ _ h2 (by decide)⟩
  have htw : (lead :: body ++ '*' :: [d1, d2]).takeWhile
      (fun c => ¬(c = '\r' ∨ c = '\n')) = lead :: body ++ '*' :: [d1, d2] := by
    apply takeWhile_all
    intro c hc
    have hcne : c ≠ '\r' ∧ c ≠ '\n' := by
      rcases List.mem_cons.mp hc with rfl | hc2
      · exact ⟨hlr.1, hlr.2.1⟩
      · rcases List.mem_append.mp hc2 with hb2 | hstar
        · exact ⟨(hb c hb2).2.1, (hb c hb2).2.2⟩
        · rcases List.mem_cons.mp hstar with rfl | hd
          · exact ⟨by decide, by decide⟩
          · rcases List.mem_cons.mp hd with rfl | hd3
            · exact ⟨hd1.1, hd1.2.1⟩
            · rcases List.mem_cons.mp hd3 with rfl | hnil
              · exact ⟨hd2.1, hd2.2.1⟩
              · exact absurd hnil (List.not_mem_nil c)
    simp only [decide_eq_true_eq, not_or]
    exact hcne
  have hstar : starScan (lead :: body ++ '*' :: [d1, d2]) 0 0 = body.length + 2 := by
    have hbody : ∀ c ∈ body, c ≠ '*' := fun c hc => (hb c hc).1
    have hstep1 : starScan (lead :: body ++ '*' :: [d1, d2]) 0 0 =
        starScan (body ++ '*' :: [d1, d2]) 1 (if lead = '*' then 1 else 0) := rfl
    rw [hstep1, if_neg hlr.2.2, starScan_append body ('*' :: [d1, d2]) 1 0,
      starScan_no_star body 1 0 hbody]
    have hstep2 : starScan ('*' :: [d1, d2]) (1 + body.length) 0 =
        starScan [d1, d2] (1 + body.length + 1)
          (if '*' = '*' then 1 + body.length + 1 else 0) := rfl
    rw [hstep2, if_pos rfl, starScan_no_star [d1, d2] _ _ ?_]
    · omega
    · intro c hc
      rcases List.mem_cons.mp hc with rfl | hc2
      · exact hd1.2.2
      · rcases List.mem_cons.mp hc2 with rfl | hnil
        · exact hd2.2.2
        · exact absurd hnil (List.not_mem_nil c)
  have htake : (lead :: body ++ '*' :: [d1, d2]).take (body.length + 1) =
      lead :: body := by
    have hrw : lead :: body ++ '*' :: [d1, d2] = (lead :: body) ++ '*' :: [d1, d2] := rfl
    rw [hrw, show body.length + 1 = (lead :: body).length from by simp]
    exact List.take_left _ _
  have hdropl : (lead :: body ++ '*' :: [d1, d2]).drop (body.length + 2) = [d1, d2] := by
    have hrw : lead :: body ++ '*' :: [d1, d2] = (lead :: body ++ ['*']) ++ [d1, d2] := by
      simp
    rw [hrw, show body.length + 2 = (lead :: body ++ ['*']).length from by simp]
    exact List.drop_left _ _
  have hxl : xorSkip (lead :: body) = xorSkip body := by rw [xorSkip_cons, if_pos hl]
  simp only [nmeaChecksum]
  rw [htw, hstar]
  have harith : body.length + 2 - 1 = body.length + 1 := by omega
  rw [harith, htake, hdropl, hxl, strtol16u8_pair d1 d2 h1 h2]
  have hne0 : ¬(body.length + 2 = 0) := by omega
  simp only [hne0, false_or]
  by_cases hv : xorSkip body = hexDigitVal d1 * 16 + hexDigitVal d2
  · simp [hv]
  · simp [hv]

/-- A buffer without `*` is always rejected. -/
theorem nmeaChecksum_no_star (s : List Char) (h : '*' ∉ s) : nmeaChecksum s = 1 := by
  simp only [nmeaChecksum]
  have hns : starScan (s.takeWhile (fun c => ¬(c = '\r' ∨ c = '\n'))) 0 0 = 0 := by
    apply starScan_no_star
    intro c hc
    intro he
    exact h (he ▸ mem_of_mem_takeWhile s hc)
  rw [hns]
  simp

/-- C1 amended: (a) a well-formed sentence `lead · body · * · d1 d2`
(leading `$`/`!`, no `*` or line end in the body, two hex digits after the
`*`) is accepted exactly when the XOR of the body bytes with every `$` and
`!` byte excluded — not only the leading one — equals the case-insensitive
two-hex-digit value after the `*`; (b) every sentence without a `*` is
rejected; (c) corrupting one non-`$`/`!` byte of the checksum span of an
accepted sentence into a different byte (itself not `$`, `!` or `*`) makes
validation reject the sentence. -/
theorem nmeaChecksum_amended :
    (∀ (lead : Char) (body : List Char) (d1 d2 : Char),
      lead = '$' ∨ lead = '!' →
      (∀ c ∈ body, c ≠ '*' ∧ c ≠ '\r' ∧ c ≠ '\n') →
      isHexDigitChar d1 = true → isHexDigitChar d2 = true →
      (nmeaChecksum (lead :: body ++ '*' :: [d1, d2]) = 0 ↔
        xorSkip body = hexDigitVal d1 * 16 + hexDigitVal d2)) ∧
    (∀ s : List Char, '*' ∉ s → nmeaChecksum s = 1) ∧
    (∀ (lead : Char) (l1 l2 : List Char) (b bNew d1 d2 : Char),
      lead = '$' ∨ lead = '!' →
      (∀ c ∈ l1 ++ b :: l2, c ≠ '*' ∧ c ≠ '\r' ∧ c ≠ '\n') →
      bNew ≠ '*' → bNew ≠ '\r' → bNew ≠ '\n' →
      isHexDigitChar d1 = true → isHexDigitChar d2 = true →
      b ≠ '$' → b ≠ '!' → bNew ≠ '$' → bNew ≠ '!' →
      byteOf b ≠ byteOf bNew →
      nmeaChecksum (lead :: (l1 ++ b :: l2) ++ '*' :: [d1, d2]) = 0 →
      nmeaChecksum (lead :: (l1 ++ bNew :: l2) ++ '*' :: [d1, d2]) = 1) := by
  refine ⟨?_, nmeaChecksum_no_star, ?_⟩
  · intro lead body d1 d2 hl hb h1 h2
    rw [nmeaChecksum_wf lead body d1 d2 hl hb h1 h2]
    by_cases hv : xorSkip body = hexDigitVal d1 * 16 + hexDigitVal d2 <;> simp [hv]
  · intro lead l1 l2 b bNew d1 d2 hl hb hbn1 hbn2 hbn3 h1 h2 hbd hbe hnd hne hbyte hval
    have hbNew : ∀ c ∈ l1 ++ bNew :: l2, c ≠ '*' ∧ c ≠ '\r' ∧ c ≠ '\n' := by
      intro c hc
      rcases List.mem_append.mp hc with hc1 | hc2
      · exact hb c (List.mem_append.mpr (Or.inl hc1))
      · rcases List.mem_cons.mp hc2 with rfl | hc3
        · exact ⟨hbn1, hbn2, hbn3⟩
        · exact hb c (List.mem_append.mpr (Or.inr (List.mem_cons_of_mem b hc3)))
    have hv1 := nmeaChecksum_wf lead (l1 ++ b :: l2) d1 d2 hl hb h1 h2
    have hv2 := nmeaChecksum_wf lead (l1 ++ bNew :: l2) d1 d2 hl hbNew h1 h2
    have hval2 := hv1.symm.trans hval
    have hxb : xorSkip (l1 ++ b :: l2) = hexDigitVal d1 * 16 + hexDigitVal d2 := by
      by_contra hcon
      rw [if_neg hcon] at hval2
      exact one_ne_zero hval2
    have hxor1 : xorSkip (l1 ++ b :: l2) = xorSkip l1 ^^^ (byteOf b ^^^ xorSkip l2) := by
      rw [xorSkip_append, xorSkip_cons, if_neg (not_or.mpr ⟨hbd, hbe⟩)]
    have hxor2 : xorSkip (l1 ++ bNew :: l2) =
        xorSkip l1 ^^^ (byteOf bNew ^^^ xorSkip l2) := by
      rw [xorSkip_append, xorSkip_cons, if_neg (not_or.mpr ⟨hnd, hne⟩)]
    have hne2 : xorSkip (l1 ++ bNew :: l2) ≠ hexDigitVal d1 * 16 + hexDigitVal d2 := by
      rw [hxor2]
      rw [hxor1] at hxb
      intro hcon
      rw [← hxb] at hcon
      have hmid := xor_cancel_left _ _ _ hcon
      have hfin := congrArg (fun x => x ^^^ xorSkip l2) hmid
      simp only [Nat.xor_assoc, Nat.xor_self, Nat.xor_zero] at hfin
      exact hbyte hfin.symm
    rw [hv2, if_neg hne2]

/-- C1 witness: (a) the canonical RMC sentence is accepted (its skipped
XOR is 0x6A, matching `*6A`); (b) `NOSTAR` is rejected; (c) corrupting the
`P` of an accepted `$GPRMC*4B` into `X` makes validation reject it. -/
theorem nmeaChecksum_amended_witness :
    nmeaChecksum ('$' ::
      "GPRMC,123519,A,4807.038,N,01131.000,E,022.4,084.4,230394,003.1,W".data ++
        '*' :: ['6', 'A']) = 0 ∧
    nmeaChecksum "NOSTAR".data = 1 ∧
    nmeaChecksum ('$' :: ("G".data ++ 'X' :: "RMC".data) ++ '*' :: ['4', 'B']) = 1 := by
  refine ⟨?_, ?_, ?_⟩
  · exact (nmeaChecksum_amended.1 '$'
      "GPRMC,123519,A,4807.038,N,01131.000,E,022.4,084.4,230394,003.1,W".data '6' 'A'
      (Or.inl rfl) (by decide) (by decide) (by decide)).mpr (by decide)
  · exact nmeaChecksum_amended.2.1 "NOSTAR".data (by decide)
  · exact nmeaChecksum_amended.2.2 '$' "G".data "RMC".data 'P' 'X' '4' 'B'
      (Or.inl rfl) (by decide) (by decide) (by decide) (by decide) (by decide)
      (by decide) (by decide) (by decide) (by decide) (by decide) (by decide)
      (by decide)

end Speedometer
